import Mathlib

/-!
Shallow embedding of the SDN controller repository (ryu-controller), centred on
`main_controller.py` (class `MainDijkstraController`) and the dual-domain
variants `gateway_primary.py` / `primary_controller.py`.

Conventions of the embedding:
* switch identifiers (dpids) and port numbers are `Nat`;
* a MAC address is its 6-byte value, `List Nat` (the Python code holds the
  usual colon-separated hex string; on well-formed addresses the string tests
  used by the code, equality with `"ff:ff:ff:ff:ff:ff"` or
  `"00:00:00:00:00:00"`, `startswith("33:33")`, `endswith(<hex byte>)`,
  and `int(mac.replace(":",""),16) & 0xFF`, correspond exactly to the byte
  tests used here);
* the `networkx` graph `topology_graph` is held as an explicit node list plus
  a list of weighted undirected edges `(a, b, w)`, each stored once;
* the defaultdict-of-dict `switch_to_port` is an association list keyed by the
  ordered pair (dpid, neighbor dpid);
* `host_locations` is an association list MAC -> (dpid, port);
* OpenFlow commands sent to a switch (packet-out, flow-mod, flood) are
  recorded as an explicit command list instead of being sent on a socket.
-/

namespace NetLab

/-- A MAC address as its six byte values. -/
abbrev Mac := List Nat

/-- The broadcast address ff:ff:ff:ff:ff:ff. -/
def bcastMac : Mac := [0xff, 0xff, 0xff, 0xff, 0xff, 0xff]

/-- The all-zero address 00:00:00:00:00:00. -/
def zeroMac : Mac := [0, 0, 0, 0, 0, 0]

/-- Weighted undirected edge list: (a, b, weight), each edge stored once. -/
abbrev WEdges := List (Nat × Nat × Nat)

/-- Controller state of `MainDijkstraController.__init__`: the node set and
edge set of `self.topology_graph`, `self.switch_to_port` and
`self.host_locations`.  (`self.datapaths` only caches transport handles and
plays no role in the embedded decisions.) -/
structure Ctrl where
  nodes : List Nat
  edges : WEdges
  ports : List ((Nat × Nat) × Nat)
  hosts : List (Mac × Nat × Nat)
deriving DecidableEq, Repr

/-- The initial controller state: empty graph, port map and host table. -/
def initialCtrl : Ctrl := ⟨[], [], [], []⟩

/-- Python `self.topology_graph.has_edge(a, b)` (undirected). -/
def hasEdgeW (E : WEdges) (a b : Nat) : Bool :=
  E.any (fun e => (e.1 == a && e.2.1 == b) || (e.1 == b && e.2.1 == a))

/-- Weight attribute of the undirected edge (a, b), when present. -/
def edgeWeight (E : WEdges) (a b : Nat) : Option Nat :=
  (E.find? (fun e => (e.1 == a && e.2.1 == b) || (e.1 == b && e.2.1 == a))).map
    (fun e => e.2.2)

/-- Adjacency in the topology graph, as a proposition. -/
def Adj (E : WEdges) (a b : Nat) : Prop := hasEdgeW E a b = true

instance (E : WEdges) (a b : Nat) : Decidable (Adj E a b) :=
  inferInstanceAs (Decidable (hasEdgeW E a b = true))

/-- Neighbors of `x` in the edge list (Python `graph.neighbors`). -/
def nbrs (E : WEdges) (x : Nat) : List Nat :=
  E.filterMap (fun e =>
    if e.1 = x then some e.2.1 else if e.2.1 = x then some e.1 else none)

theorem adj_symm {E : WEdges} {a b : Nat} (h : Adj E a b) : Adj E b a := by
  unfold Adj hasEdgeW at h ⊢
  rcases List.any_eq_true.mp h with ⟨e, he, hp⟩
  exact List.any_eq_true.mpr ⟨e, he, by
    simp only [Bool.or_eq_true, Bool.and_eq_true, beq_iff_eq] at hp ⊢
    tauto⟩

theorem mem_nbrs {E : WEdges} {x y : Nat} : y ∈ nbrs E x ↔ Adj E x y := by
  unfold nbrs Adj hasEdgeW
  rw [List.mem_filterMap, List.any_eq_true]
  constructor
  · rintro ⟨e, he, hy⟩
    refine ⟨e, he, ?_⟩
    simp only [Bool.or_eq_true, Bool.and_eq_true, beq_iff_eq]
    by_cases h1 : e.1 = x
    · simp [h1] at hy; tauto
    · by_cases h2 : e.2.1 = x
      · simp [h1, h2] at hy; tauto
      · simp [h1, h2] at hy
  · rintro ⟨e, he, hp⟩
    refine ⟨e, he, ?_⟩
    simp only [Bool.or_eq_true, Bool.and_eq_true, beq_iff_eq] at hp
    rcases hp with ⟨h1, h2⟩ | ⟨h1, h2⟩
    · simp [h1, h2]
    · by_cases hx : e.1 = x
      · simp only [if_pos hx]
        rw [h2, ← hx, h1]
      · simp only [if_neg hx, if_pos h2]
        rw [h1]

/-! Walks in the topology graph.  `nx.shortest_path(G, src, dst,
weight='weight')` contracts to return a connecting path of minimal total
weight (its tie-breaking among equally light paths is unspecified); the
embedding realises that contract by exhaustive bounded search, which is
adequate because a lightest walk may be assumed to repeat no vertex. -/

/-- A walk: consecutive elements are adjacent in the edge list. -/
def IsWalk (E : WEdges) (p : List Nat) : Prop := List.Chain' (Adj E) p

/-- Executable walk test, for evaluating the embedding on concrete inputs. -/
def walkB (E : WEdges) : List Nat → Bool
  | a :: b :: rest => hasEdgeW E a b && walkB E (b :: rest)
  | _ => true

theorem walkB_iff {E : WEdges} : ∀ (p : List Nat),
    walkB E p = true ↔ List.Chain' (Adj E) p
  | [] => by simp [walkB]
  | [a] => by simp [walkB]
  | a :: b :: rest => by
    simp only [walkB, Bool.and_eq_true, List.chain'_cons]
    exact and_congr Iff.rfl (walkB_iff (b :: rest))

instance (E : WEdges) (p : List Nat) : Decidable (IsWalk E p) :=
  decidable_of_iff (walkB E p = true) (walkB_iff p)

/-- A walk connecting `s` to `d` (inclusive of both endpoints). -/
def ConnWalk (E : WEdges) (s d : Nat) (p : List Nat) : Prop :=
  p.head? = some s ∧ p.getLast? = some d ∧ IsWalk E p

instance (E : WEdges) (s d : Nat) (p : List Nat) : Decidable (ConnWalk E s d p) :=
  inferInstanceAs
    (Decidable (p.head? = some s ∧ p.getLast? = some d ∧ IsWalk E p))

/-- Total weight of a walk: the sum of the `weight` attributes of its
consecutive edges (`discover_topology` stores every discovered link with
`weight=1`; the definition also covers general weights as used by
`primary_controller.py`). -/
def walkWeight (E : WEdges) : List Nat → Nat
  | a :: b :: rest => (edgeWeight E a b).getD 0 + walkWeight E (b :: rest)
  | _ => 0

/-- All walks of exactly `k` edges starting at `s`, each stored reversed
(head of the list = far end of the walk). -/
def walksFrom (E : WEdges) (s : Nat) : Nat → List (List Nat)
  | 0 => [[s]]
  | k + 1 => (walksFrom E s k).flatMap (fun p =>
      match p with
      | [] => []
      | x :: _ => (nbrs E x).map (fun y => y :: p))

theorem isWalk_reverse {E : WEdges} {p : List Nat} :
    IsWalk E p.reverse ↔ IsWalk E p := by
  unfold IsWalk
  rw [List.chain'_reverse]
  constructor
  · exact fun h => h.imp (fun a b hab => adj_symm hab)
  · exact fun h => h.imp (fun a b hab => adj_symm hab)

theorem mem_walksFrom {E : WEdges} {s : Nat} :
    ∀ {k : Nat} {q : List Nat}, q ∈ walksFrom E s k ↔
      q.length = k + 1 ∧ q.getLast? = some s ∧ IsWalk E q := by
  intro k
  induction k with
  | zero =>
    intro q
    simp only [walksFrom, List.mem_singleton]
    constructor
    · rintro rfl
      exact ⟨rfl, rfl, List.chain'_singleton s⟩
    · rintro ⟨hl, hlast, _⟩
      match q, hl with
      | [a], _ =>
        simp only [List.getLast?_singleton, Option.some_inj] at hlast
        rw [hlast]
  | succ k ih =>
    intro q
    simp only [walksFrom, List.mem_flatMap]
    constructor
    · rintro ⟨p, hp, hq⟩
      rcases ih.mp hp with ⟨hl, hlast, hw⟩
      match p, hl with
      | x :: t, hl =>
        simp only [List.mem_map] at hq
        rcases hq with ⟨y, hy, rfl⟩
        refine ⟨by simpa using hl, ?_, ?_⟩
        · rwa [List.getLast?_cons_cons]
        · exact List.chain'_cons.mpr ⟨adj_symm (mem_nbrs.mp hy), hw⟩
    · rintro ⟨hl, hlast, hw⟩
      match q, hl with
      | y :: x :: t, hl =>
        rcases List.chain'_cons.mp hw with ⟨hadj, hw'⟩
        refine ⟨x :: t, ih.mpr ⟨by simpa using hl, ?_, hw'⟩, ?_⟩
        · rwa [List.getLast?_cons_cons] at hlast
        · simp only [List.mem_map]
          exact ⟨y, mem_nbrs.mpr (adj_symm hadj), rfl⟩

/-- Connecting walk candidates of at most `n` edges, in forward orientation. -/
def candWalks (E : WEdges) (s d : Nat) : Nat → List (List Nat)
  | 0 => ((walksFrom E s 0).filter (fun p => p.head? == some d)).map List.reverse
  | n + 1 => candWalks E s d n ++
      ((walksFrom E s (n + 1)).filter (fun p => p.head? == some d)).map List.reverse

theorem mem_candWalks {E : WEdges} {s d : Nat} :
    ∀ {n : Nat} {q : List Nat}, q ∈ candWalks E s d n ↔
      ConnWalk E s d q ∧ q.length ≤ n + 1 := by
  have key : ∀ (k : Nat) (q : List Nat),
      (q ∈ ((walksFrom E s k).filter (fun p => p.head? == some d)).map List.reverse) ↔
      (ConnWalk E s d q ∧ q.length = k + 1) := by
    intro k q
    simp only [List.mem_map, List.mem_filter, beq_iff_eq]
    constructor
    · rintro ⟨p, ⟨hp, hd⟩, rfl⟩
      rcases mem_walksFrom.mp hp with ⟨hl, hs, hw⟩
      refine ⟨⟨?_, ?_, isWalk_reverse.mpr hw⟩, by simpa using hl⟩
      · rw [List.head?_reverse]; exact hs
      · rw [List.getLast?_reverse]; exact hd
    · rintro ⟨⟨hh, hl2, hw⟩, hlen⟩
      refine ⟨q.reverse, ⟨mem_walksFrom.mpr ⟨by simpa using hlen, ?_, ?_⟩, ?_⟩,
        q.reverse_reverse⟩
      · rw [List.getLast?_reverse]; exact hh
      · rw [isWalk_reverse]; exact hw
      · rw [List.head?_reverse]; exact hl2
  intro n
  induction n with
  | zero =>
    intro q
    rw [candWalks, key 0 q]
    constructor
    · rintro ⟨hc, hl⟩; exact ⟨hc, hl.le⟩
    · rintro ⟨hc, hl⟩
      refine ⟨hc, le_antisymm hl ?_⟩
      rcases hc with ⟨hh, -, -⟩
      cases q with
      | nil => simp at hh
      | cons a t => simp
  | succ n ih =>
    intro q
    rw [candWalks, List.mem_append, ih, key (n + 1) q]
    constructor
    · rintro (⟨hc, hl⟩ | ⟨hc, hl⟩)
      · exact ⟨hc, hl.trans (Nat.le_succ _)⟩
      · exact ⟨hc, hl.le⟩
    · rintro ⟨hc, hl⟩
      rcases Nat.lt_or_ge q.length (n + 2) with h | h
      · exact Or.inl ⟨hc, Nat.lt_succ_iff.mp h⟩
      · exact Or.inr ⟨hc, le_antisymm hl h⟩

/-- Selects a walk of minimal total weight from the candidate list. -/
def pickMinWalk (E : WEdges) : List (List Nat) → Option (List Nat)
  | [] => none
  | c :: cs => some (cs.foldl
      (fun best q => if walkWeight E q < walkWeight E best then q else best) c)

theorem pickMinWalk_spec {E : WEdges} :
    ∀ {cs : List (List Nat)} {r : List Nat}, pickMinWalk E cs = some r →
      r ∈ cs ∧ ∀ q ∈ cs, walkWeight E r ≤ walkWeight E q := by
  have aux : ∀ (cs : List (List Nat)) (c : List Nat),
      let r := cs.foldl
        (fun best q => if walkWeight E q < walkWeight E best then q else best) c
      (r = c ∨ r ∈ cs) ∧ walkWeight E r ≤ walkWeight E c ∧
        ∀ q ∈ cs, walkWeight E r ≤ walkWeight E q := by
    intro cs
    induction cs with
    | nil => exact fun c => ⟨Or.inl rfl, le_refl _, by simp⟩
    | cons x xs ih =>
      intro c
      simp only [List.foldl_cons]
      by_cases h : walkWeight E x < walkWeight E c
      · rw [if_pos h]
        rcases ih x with ⟨hmem, hle, hall⟩
        refine ⟨?_, ?_, ?_⟩
        · rcases hmem with h' | h'
          · exact Or.inr (by simp [h'])
          · exact Or.inr (List.mem_cons_of_mem _ h')
        · exact hle.trans h.le
        · intro q hq
          rcases List.mem_cons.mp hq with rfl | hq'
          · exact hle
          · exact hall q hq'
      · rw [if_neg h]
        rcases ih c with ⟨hmem, hle, hall⟩
        refine ⟨hmem.imp id (List.mem_cons_of_mem x), hle, ?_⟩
        intro q hq
        rcases List.mem_cons.mp hq with rfl | hq'
        · exact hle.trans (Nat.le_of_not_lt h)
        · exact hall q hq'
  intro cs r h
  match cs, h with
  | c :: cs', h =>
    simp only [pickMinWalk, Option.some_inj] at h
    rcases aux cs' c with ⟨hmem, hle, hall⟩
    rw [h] at hmem hle hall
    constructor
    · rcases hmem with h' | h'
      · exact h' ▸ List.mem_cons_self _ _
      · exact List.mem_cons_of_mem _ h'
    · intro q hq
      rcases List.mem_cons.mp hq with rfl | hq'
      · exact hle
      · exact hall q hq'

/-! Shortening a walk at a repeated vertex.  Removing the cycle between two
occurrences of the same vertex keeps a connecting walk, never increases its
length or (with nonnegative weights) its total weight, so lightest walks may
be assumed vertex-repetition-free. -/

theorem exists_dup_decomp {α : Type} {l : List α} (h : ¬ l.Nodup) :
    ∃ (l₁ : List α) (a : α) (l₂ l₃ : List α), l = l₁ ++ a :: l₂ ++ a :: l₃ := by
  induction l with
  | nil => exact absurd List.nodup_nil h
  | cons x xs ih =>
    by_cases hx : x ∈ xs
    · rcases List.append_of_mem hx with ⟨s, t, rfl⟩
      exact ⟨[], x, s, t, rfl⟩
    · have : ¬ xs.Nodup := fun hn => h (List.nodup_cons.mpr ⟨hx, hn⟩)
      rcases ih this with ⟨l₁, a, l₂, l₃, rfl⟩
      exact ⟨x :: l₁, a, l₂, l₃, rfl⟩

theorem chain'_cut {α : Type} {R : α → α → Prop} {l₁ l₂ l₃ : List α} {a : α}
    (h : List.Chain' R (l₁ ++ a :: l₂ ++ a :: l₃)) :
    List.Chain' R (l₁ ++ a :: l₃) := by
  have h' : List.Chain' R (l₁ ++ ((a :: l₂) ++ a :: l₃)) := by
    simpa using h
  rcases List.chain'_append.mp h' with ⟨hc1, hc23, hlink1⟩
  rcases List.chain'_append.mp hc23 with ⟨_, hc3, _⟩
  refine List.chain'_append.mpr ⟨hc1, hc3, ?_⟩
  intro x hx y hy
  exact hlink1 x hx y (by simpa using hy)

theorem head?_cut {α : Type} (l : List α) (a : α) (X Y : List α) :
    (l ++ a :: X).head? = (l ++ a :: Y).head? := by
  cases l <;> simp

theorem getLast?_cut {α : Type} (l : List α) (a : α) (X Y : List α) :
    (X ++ a :: l).getLast? = (Y ++ a :: l).getLast? := by
  rw [List.getLast?_append, List.getLast?_append]
  cases h : (a :: l).getLast? with
  | none => simp at h
  | some b => rfl

theorem walkWeight_split (E : WEdges) :
    ∀ (xs : List Nat) (a : Nat) (ys : List Nat),
      walkWeight E (xs ++ a :: ys) = walkWeight E (xs ++ [a]) + walkWeight E (a :: ys) := by
  intro xs
  induction xs with
  | nil => intro a ys; simp [walkWeight]
  | cons x xs ih =>
    intro a ys
    cases xs with
    | nil => simp [walkWeight]
    | cons x' xs' =>
      have h1 : walkWeight E (x :: (x' :: xs') ++ a :: ys) =
          (edgeWeight E x x').getD 0 + walkWeight E ((x' :: xs') ++ a :: ys) := rfl
      have h2 : walkWeight E (x :: (x' :: xs') ++ [a]) =
          (edgeWeight E x x').getD 0 + walkWeight E ((x' :: xs') ++ [a]) := rfl
      have ih' := ih a ys
      simp only [List.cons_append] at h1 h2 ih' ⊢
      rw [h1, h2, ih', Nat.add_assoc]

theorem walkWeight_cut (E : WEdges) (l₁ l₂ l₃ : List Nat) (a : Nat) :
    walkWeight E (l₁ ++ a :: l₃) ≤ walkWeight E (l₁ ++ a :: l₂ ++ a :: l₃) := by
  have h1 : walkWeight E (l₁ ++ a :: l₂ ++ a :: l₃) =
      walkWeight E (l₁ ++ [a]) + walkWeight E (a :: l₂ ++ a :: l₃) := by
    have := walkWeight_split E l₁ a (l₂ ++ a :: l₃)
    simpa using this
  have h2 : walkWeight E (a :: l₂ ++ a :: l₃) =
      walkWeight E ((a :: l₂) ++ [a]) + walkWeight E (a :: l₃) := by
    have := walkWeight_split E (a :: l₂) a l₃
    simpa using this
  rw [walkWeight_split E l₁ a l₃, h1, h2]
  exact Nat.add_le_add_left (Nat.le_add_left _ _) _

theorem walk_shorten_aux (E : WEdges) :
    ∀ (n : Nat) (q : List Nat), q.length ≤ n → IsWalk E q →
      ∃ q', IsWalk E q' ∧ q'.Nodup ∧ q'.head? = q.head? ∧
        q'.getLast? = q.getLast? ∧ q'.length ≤ q.length ∧
        walkWeight E q' ≤ walkWeight E q ∧ q' ⊆ q := by
  intro n
  induction n with
  | zero =>
    intro q hq _
    have : q = [] := List.length_eq_zero.mp (Nat.le_zero.mp hq)
    subst this
    exact ⟨[], List.chain'_nil, List.nodup_nil, rfl, rfl, le_refl _, le_refl _,
      fun _ h => h⟩
  | succ n ih =>
    intro q hq hw
    by_cases hd : q.Nodup
    · exact ⟨q, hw, hd, rfl, rfl, le_refl _, le_refl _, fun _ h => h⟩
    · rcases exists_dup_decomp hd with ⟨l₁, a, l₂, l₃, hdec⟩
      subst hdec
      have hlen : (l₁ ++ a :: l₃).length ≤ n := by
        simp only [List.length_append, List.length_cons] at hq ⊢
        omega
      have hw' : IsWalk E (l₁ ++ a :: l₃) := chain'_cut hw
      rcases ih (l₁ ++ a :: l₃) hlen hw' with
        ⟨q', hq'w, hq'd, hq'h, hq'l, hq'len, hq'wt, hq'sub⟩
      refine ⟨q', hq'w, hq'd, ?_, ?_, ?_, ?_, ?_⟩
      · rw [hq'h]
        have h := head?_cut l₁ a l₃ (l₂ ++ a :: l₃)
        rw [h]; simp
      · rw [hq'l]
        have := getLast?_cut l₃ a l₁ (l₁ ++ a :: l₂)
        simpa using this
      · refine hq'len.trans ?_
        simp; omega
      · refine hq'wt.trans ?_
        have := walkWeight_cut E l₁ l₂ l₃ a
        simpa using this
      · intro x hx
        have hx' := hq'sub hx
        simp only [List.mem_append, List.mem_cons] at hx' ⊢
        tauto

theorem walk_shorten (E : WEdges) (q : List Nat) (hw : IsWalk E q) :
    ∃ q', IsWalk E q' ∧ q'.Nodup ∧ q'.head? = q.head? ∧
      q'.getLast? = q.getLast? ∧ q'.length ≤ q.length ∧
      walkWeight E q' ≤ walkWeight E q ∧ q' ⊆ q :=
  walk_shorten_aux E q.length q (le_refl _) hw

/-- Python `self.topology_graph.has_node(x)`: the nodes added explicitly by
`discover_topology` plus the endpoints `add_edge` adds implicitly. -/
def hasNodeB (st : Ctrl) (x : Nat) : Bool :=
  st.nodes.contains x || st.edges.any (fun e => e.1 == x || e.2.1 == x)

/-- Every vertex of the graph, with multiplicity; its length bounds the
length of any vertex-repetition-free walk. -/
def allNodes (st : Ctrl) : List Nat :=
  st.nodes ++ st.edges.flatMap (fun e => [e.1, e.2.1])

theorem hasNode_mem_allNodes {st : Ctrl} {x : Nat} (h : hasNodeB st x = true) :
    x ∈ allNodes st := by
  unfold hasNodeB at h
  unfold allNodes
  rw [List.mem_append, List.mem_flatMap]
  rw [Bool.or_eq_true] at h
  rcases h with h | h
  · exact Or.inl (by simpa using h)
  · rcases List.any_eq_true.mp h with ⟨e, he, hp⟩
    simp only [Bool.or_eq_true, beq_iff_eq] at hp
    rcases hp with hp | hp
    · exact Or.inr ⟨e, he, by simp [hp]⟩
    · exact Or.inr ⟨e, he, by simp [hp]⟩

theorem hasNode_of_adj {st : Ctrl} {x y : Nat} (h : Adj st.edges x y) :
    hasNodeB st x = true := by
  unfold Adj hasEdgeW at h
  rcases List.any_eq_true.mp h with ⟨e, he, hp⟩
  unfold hasNodeB
  rw [Bool.or_eq_true]
  refine Or.inr (List.any_eq_true.mpr ⟨e, he, ?_⟩)
  simp only [Bool.or_eq_true, Bool.and_eq_true, beq_iff_eq] at hp ⊢
  tauto

theorem chain_tail_adj {E : WEdges} :
    ∀ {t : List Nat} {x : Nat}, List.Chain' (Adj E) (x :: t) →
      ∀ y ∈ t, ∃ z, Adj E z y := by
  intro t
  induction t with
  | nil => intro x _ y hy; simp at hy
  | cons b t' ih =>
    intro x hc y hy
    rcases List.chain'_cons.mp hc with ⟨hadj, hc'⟩
    rcases List.mem_cons.mp hy with rfl | hy'
    · exact ⟨x, hadj⟩
    · exact ih hc' y hy'

theorem walk_subset_allNodes {st : Ctrl} {s d : Nat} {q : List Nat}
    (hq : ConnWalk st.edges s d q) (hs : hasNodeB st s = true) :
    ∀ y ∈ q, y ∈ allNodes st := by
  rcases hq with ⟨hh, -, hw⟩
  intro y hy
  match q, hh with
  | x :: t, hh =>
    simp only [List.head?_cons, Option.some_inj] at hh
    subst hh
    rcases List.mem_cons.mp hy with rfl | hy'
    · exact hasNode_mem_allNodes hs
    · rcases chain_tail_adj hw y hy' with ⟨z, hz⟩
      exact hasNode_mem_allNodes (hasNode_of_adj (adj_symm hz))

theorem connWalk_reverse {E : WEdges} {s d : Nat} {q : List Nat}
    (hq : ConnWalk E s d q) : ConnWalk E d s q.reverse := by
  rcases hq with ⟨hh, hl, hw⟩
  refine ⟨?_, ?_, isWalk_reverse.mpr hw⟩
  · rw [List.head?_reverse]; exact hl
  · rw [List.getLast?_reverse]; exact hh

theorem connWalk_hasNode_src {st : Ctrl} {s d : Nat} {q : List Nat}
    (hq : ConnWalk st.edges s d q) (hne : s ≠ d) : hasNodeB st s = true := by
  rcases hq with ⟨hh, hl, hw⟩
  match q, hh, hl with
  | [x], hh, hl =>
    exfalso
    simp only [List.head?_cons, Option.some_inj] at hh
    simp only [List.getLast?_singleton, Option.some_inj] at hl
    exact hne (hh ▸ hl)
  | x :: b :: t, hh, hl =>
    simp only [List.head?_cons, Option.some_inj] at hh
    rcases List.chain'_cons.mp hw with ⟨hadj, -⟩
    exact hh ▸ hasNode_of_adj hadj

theorem connWalk_hasNode {st : Ctrl} {s d : Nat} {q : List Nat}
    (hq : ConnWalk st.edges s d q) (hne : s ≠ d) :
    hasNodeB st s = true ∧ hasNodeB st d = true :=
  ⟨connWalk_hasNode_src hq hne,
   connWalk_hasNode_src (connWalk_reverse hq) (Ne.symm hne)⟩

/-- `MainDijkstraController.calculate_shortest_path` (main_controller.py,
lines 328-354): the `src == dst` short-circuit, the `has_node` guard, and
then `nx.shortest_path(self.topology_graph, src, dst, weight='weight')`,
realised as a minimal-total-weight connecting walk, with `None` both for a
missing endpoint and for `nx.NetworkXNoPath`. -/
def calculate_shortest_path (st : Ctrl) (src dst : Nat) : Option (List Nat) :=
  if src = dst then some [src]
  else if hasNodeB st src && hasNodeB st dst then
    pickMinWalk st.edges (candWalks st.edges src dst (allNodes st).length)
  else none

theorem shorten_to_cand {st : Ctrl} {src dst : Nat} {q : List Nat}
    (hq : ConnWalk st.edges src dst q) (hs : hasNodeB st src = true) :
    ∃ q', q' ∈ candWalks st.edges src dst (allNodes st).length ∧
      walkWeight st.edges q' ≤ walkWeight st.edges q := by
  rcases hq with ⟨hh, hl, hw⟩
  rcases walk_shorten st.edges q hw with
    ⟨q', hq'w, hq'd, hq'h, hq'l, -, hq'wt, hq'sub⟩
  have hq'conn : ConnWalk st.edges src dst q' :=
    ⟨hq'h.trans hh, hq'l.trans hl, hq'w⟩
  have hsub : ∀ y ∈ q', y ∈ allNodes st := walk_subset_allNodes hq'conn hs
  have hlen : q'.length ≤ (allNodes st).length :=
    (hq'd.subperm (fun y hy => hsub y hy)).length_le
  exact ⟨q', mem_candWalks.mpr ⟨hq'conn, hlen.trans (Nat.le_succ _)⟩, hq'wt⟩

/-- C1: for every pair of distinct switches connected in the topology graph,
`calculate_shortest_path` returns an ordered switch list that starts at
`src`, ends at `dst`, steps only along edges of the graph, and whose total
edge weight is minimal among all connecting walks — i.e. it equals the
graph's true shortest-path distance between `src` and `dst`. -/
theorem calculate_shortest_path_correct (st : Ctrl) (src dst : Nat)
    (hne : src ≠ dst) (q₀ : List Nat) (h₀ : ConnWalk st.edges src dst q₀) :
    ∃ p, calculate_shortest_path st src dst = some p ∧
      p.head? = some src ∧ p.getLast? = some dst ∧
      List.Chain' (Adj st.edges) p ∧
      (∀ q, ConnWalk st.edges src dst q →
        walkWeight st.edges p ≤ walkWeight st.edges q) := by
  rcases connWalk_hasNode h₀ hne with ⟨hs, hd⟩
  rcases shorten_to_cand h₀ hs with ⟨q', hq'mem, -⟩
  have hne' : candWalks st.edges src dst (allNodes st).length ≠ [] :=
    fun h => by rw [h] at hq'mem; exact absurd hq'mem (List.not_mem_nil q')
  obtain ⟨r, hr⟩ : ∃ r,
      pickMinWalk st.edges (candWalks st.edges src dst (allNodes st).length) =
        some r := by
    cases hc : candWalks st.edges src dst (allNodes st).length with
    | nil => exact absurd hc hne'
    | cons c cs => exact ⟨_, rfl⟩
  rcases pickMinWalk_spec hr with ⟨hrmem, hrmin⟩
  rcases (mem_candWalks.mp hrmem).1 with ⟨hrh, hrl, hrw⟩
  refine ⟨r, ?_, hrh, hrl, hrw, ?_⟩
  · unfold calculate_shortest_path
    rw [if_neg hne, if_pos (by rw [hs, hd]; rfl)]
    exact hr
  · intro q hq
    rcases shorten_to_cand hq hs with ⟨q'', hq''mem, hq''wt⟩
    exact (hrmin q'' hq''mem).trans hq''wt

/-- The diamond test topology s1-s2, s1-s3, s2-s4, s3-s4, weight 1 each. -/
def stDiamond : Ctrl :=
  ⟨[1, 2, 3, 4], [(1, 2, 1), (1, 3, 1), (2, 4, 1), (3, 4, 1)], [], []⟩

/-- Witness for C1 on the diamond topology, with connecting walk [1, 2, 4]. -/
theorem calculate_shortest_path_correct_witness :
    (1 : Nat) ≠ 4 ∧ ConnWalk stDiamond.edges 1 4 [1, 2, 4] ∧
    ∃ p, calculate_shortest_path stDiamond 1 4 = some p ∧
      p.head? = some 1 ∧ p.getLast? = some 4 ∧
      List.Chain' (Adj stDiamond.edges) p ∧
      (∀ q, ConnWalk stDiamond.edges 1 4 q →
        walkWeight stDiamond.edges p ≤ walkWeight stDiamond.edges q) :=
  ⟨by decide, by decide,
   calculate_shortest_path_correct stDiamond 1 4 (by decide) [1, 2, 4] (by decide)⟩

/-- C5 counterexample: on the empty graph node 1 is absent, yet
`calculate_shortest_path(1, 1)` returns the single-element path [1] rather
than None — the `src == dst` short-circuit precedes the `has_node` guard. -/
theorem shortest_path_self_absent_cex :
    hasNodeB initialCtrl 1 = false ∧
    calculate_shortest_path initialCtrl 1 1 = some [1] :=
  ⟨by decide, by decide⟩

/-- C5 amended: `calculate_shortest_path(src, src)` returns `[src]`
unconditionally, even when `src` is absent from the graph; a missing
endpoint yields NoPath only when the endpoints are distinct. -/
theorem shortest_path_self_and_absent (st : Ctrl) (src dst : Nat) :
    calculate_shortest_path st src src = some [src] ∧
    (src ≠ dst → (hasNodeB st src = false ∨ hasNodeB st dst = false) →
      calculate_shortest_path st src dst = none) := by
  constructor
  · unfold calculate_shortest_path
    rw [if_pos rfl]
  · intro hne habs
    unfold calculate_shortest_path
    have hcond : ¬ ((hasNodeB st src && hasNodeB st dst) = true) := by
      rcases habs with h | h <;> simp [h]
    rw [if_neg hne, if_neg hcond]

/-- Witness for C5 amended at the empty graph with src 1, dst 2. -/
theorem shortest_path_self_and_absent_witness :
    calculate_shortest_path initialCtrl 1 1 = some [1] ∧
    calculate_shortest_path initialCtrl 1 2 = none :=
  ⟨(shortest_path_self_and_absent initialCtrl 1 1).1,
   (shortest_path_self_and_absent initialCtrl 1 2).2 (by decide)
     (Or.inl (by decide))⟩

/-! The Topology Store mutators.  `AddLink` is the body of the per-link loop
of `discover_topology` (main_controller.py, lines 206-215): guarded by
`has_edge`, it adds the edge and both directions of the port map.
`RemoveLink` is the mutation part of `link_delete_handler` (lines 164-173):
it removes the edge if present and deletes both port-map entries, each
deletion independently guarded by key membership. -/

/-- Lookup in an ordered-pair-keyed association list. -/
def findPort (ps : List ((Nat × Nat) × Nat)) (a b : Nat) : Option Nat :=
  (ps.find? (fun kv => kv.1.1 == a && kv.1.2 == b)).map (fun kv => kv.2)

/-- Port-map lookup `switch_to_port[a][b]` (None when either key is absent). -/
def portOf (st : Ctrl) (a b : Nat) : Option Nat := findPort st.ports a b

/-- Dict removal `del switch_to_port[a][b]`, a no-op when the key is absent. -/
def delPort (ps : List ((Nat × Nat) × Nat)) (a b : Nat) :
    List ((Nat × Nat) × Nat) :=
  ps.filter (fun kv => !(kv.1.1 == a && kv.1.2 == b))

/-- Dict assignment `switch_to_port[a][b] = p`. -/
def setPort (ps : List ((Nat × Nat) × Nat)) (a b p : Nat) :
    List ((Nat × Nat) × Nat) :=
  ((a, b), p) :: delPort ps a b

/-- Link addition from `discover_topology`:
`if not has_edge(a, b): add_edge(a, b, weight=w);
switch_to_port[a][b] = pa; switch_to_port[b][a] = pb`. -/
def addLink (st : Ctrl) (a pa b pb w : Nat) : Ctrl :=
  if hasEdgeW st.edges a b then st
  else { st with
    edges := (a, b, w) :: st.edges,
    ports := setPort (setPort st.ports a b pa) b a pb }

/-- Link removal from `link_delete_handler`: drop the undirected edge when
present, then delete `switch_to_port[a][b]` and `switch_to_port[b][a]`,
each when present. -/
def removeLink (st : Ctrl) (a b : Nat) : Ctrl :=
  { st with
    edges :=
      if hasEdgeW st.edges a b then
        st.edges.filter
          (fun e => !((e.1 == a && e.2.1 == b) || (e.1 == b && e.2.1 == a)))
      else st.edges,
    ports := delPort (delPort st.ports a b) b a }

/-- A link-add or link-delete delivered to the Topology Store. -/
inductive TopoOp where
  | add (a pa b pb w : Nat)
  | del (a b : Nat)

def applyOp (st : Ctrl) : TopoOp → Ctrl
  | .add a pa b pb w => addLink st a pa b pb w
  | .del a b => removeLink st a b

/-- The port-map symmetry invariant of the spec: the graph has edge (a, b)
exactly when both `switch_to_port[a][b]` and `switch_to_port[b][a]` are
defined, and the two entries are always defined or undefined together. -/
def PortMapSymm (st : Ctrl) : Prop :=
  ∀ a b : Nat,
    (hasEdgeW st.edges a b = true ↔
      (portOf st a b).isSome = true ∧ (portOf st b a).isSome = true) ∧
    ((portOf st a b).isSome = true ↔ (portOf st b a).isSome = true)

theorem find?_filter_of_imp {α : Type} {p q : α → Bool}
    (h : ∀ v, p v = true → q v = true) :
    ∀ l : List α, (l.filter q).find? p = l.find? p := by
  intro l
  induction l with
  | nil => rfl
  | cons v l ih =>
    by_cases hq : q v = true
    · rw [List.filter_cons_of_pos hq]
      by_cases hp : p v = true
      · rw [List.find?_cons_of_pos _ hp, List.find?_cons_of_pos _ hp]
      · rw [List.find?_cons_of_neg _ hp, List.find?_cons_of_neg _ hp]
        exact ih
    · rw [List.filter_cons_of_neg hq, ih,
        List.find?_cons_of_neg _ (fun hp => hq (h v hp))]

theorem find?_filter_none {α : Type} {p q : α → Bool}
    (h : ∀ v, p v = true → q v = false) (l : List α) :
    (l.filter q).find? p = none := by
  rw [List.find?_eq_none]
  intro v hv hp
  rcases List.mem_filter.mp hv with ⟨-, hq⟩
  rw [h v hp] at hq
  exact Bool.false_ne_true hq

theorem findPort_delPort (ps : List ((Nat × Nat) × Nat)) (x y a b : Nat) :
    findPort (delPort ps x y) a b =
      if a = x ∧ b = y then none else findPort ps a b := by
  unfold findPort delPort
  by_cases h : a = x ∧ b = y
  · rcases h with ⟨rfl, rfl⟩
    rw [if_pos ⟨rfl, rfl⟩, find?_filter_none (fun v hv => ?_)]
    · rfl
    · rw [hv]; rfl
  · rw [if_neg h, find?_filter_of_imp (fun v hv => ?_)]
    simp only [Bool.and_eq_true, beq_iff_eq] at hv
    simp only [Bool.not_eq_true', Bool.and_eq_false_iff, beq_eq_false_iff_ne]
    by_cases hx : v.1.1 = x
    · exact Or.inr (fun hy => h ⟨hv.1.symm.trans hx, hv.2.symm.trans hy⟩)
    · exact Or.inl hx

theorem findPort_setPort (ps : List ((Nat × Nat) × Nat)) (x y p a b : Nat) :
    findPort (setPort ps x y p) a b =
      if a = x ∧ b = y then some p else findPort ps a b := by
  unfold setPort
  by_cases h : a = x ∧ b = y
  · rcases h with ⟨rfl, rfl⟩
    rw [if_pos ⟨rfl, rfl⟩]
    unfold findPort
    rw [List.find?_cons_of_pos _ (by simp)]
    rfl
  · rw [if_neg h]
    have hkey : ¬ ((fun kv => kv.1.1 == a && kv.1.2 == b)
        (((x, y), p) : (Nat × Nat) × Nat)) = true := by
      simp only [Bool.and_eq_true, beq_iff_eq]
      exact fun hk => h ⟨hk.1.symm, hk.2.symm⟩
    unfold findPort
    rw [List.find?_cons_of_neg (p := fun kv => kv.1.1 == a && kv.1.2 == b)
      (delPort ps x y) hkey]
    have hd := findPort_delPort ps x y a b
    rw [if_neg h] at hd
    exact hd

theorem hasEdgeW_symm (E : WEdges) (a b : Nat) :
    hasEdgeW E a b = hasEdgeW E b a := by
  cases hab : hasEdgeW E a b with
  | true => exact ((adj_symm (show Adj E a b from hab)) : hasEdgeW E b a = true).symm
  | false =>
    cases hba : hasEdgeW E b a with
    | true =>
      have hc : hasEdgeW E a b = true := adj_symm (show Adj E b a from hba)
      rw [hab] at hc
      exact absurd hc Bool.false_ne_true
    | false => rfl

theorem hasEdgeW_cons {x y w a b : Nat} {E : WEdges} :
    hasEdgeW ((x, y, w) :: E) a b = true ↔
      ((x = a ∧ y = b) ∨ (x = b ∧ y = a)) ∨ hasEdgeW E a b = true := by
  unfold hasEdgeW
  simp [List.any_cons]

theorem hasEdgeW_filter_out {x y a b : Nat} {E : WEdges} :
    hasEdgeW (E.filter
      (fun e => !((e.1 == x && e.2.1 == y) || (e.1 == y && e.2.1 == x)))) a b = true ↔
      (¬ ((a = x ∧ b = y) ∨ (a = y ∧ b = x))) ∧ hasEdgeW E a b = true := by
  unfold hasEdgeW
  rw [List.any_eq_true, List.any_eq_true]
  constructor
  · rintro ⟨e, he, hp⟩
    rcases List.mem_filter.mp he with ⟨heE, hkeep⟩
    simp only [Bool.not_eq_true', Bool.or_eq_false_iff, Bool.and_eq_false_iff,
      beq_eq_false_iff_ne] at hkeep
    simp only [Bool.or_eq_true, Bool.and_eq_true, beq_iff_eq] at hp
    exact ⟨by omega, ⟨e, heE, by
      simp only [Bool.or_eq_true, Bool.and_eq_true, beq_iff_eq]; exact hp⟩⟩
  · rintro ⟨hne, e, he, hp⟩
    simp only [Bool.or_eq_true, Bool.and_eq_true, beq_iff_eq] at hp
    refine ⟨e, List.mem_filter.mpr ⟨he, ?_⟩, by
      simp only [Bool.or_eq_true, Bool.and_eq_true, beq_iff_eq]; exact hp⟩
    simp only [Bool.not_eq_true', Bool.or_eq_false_iff, Bool.and_eq_false_iff,
      beq_eq_false_iff_ne]
    omega

theorem portMapSymm_addLink {st : Ctrl} (h : PortMapSymm st) (a pa b pb w : Nat) :
    PortMapSymm (addLink st a pa b pb w) := by
  unfold addLink
  by_cases he : hasEdgeW st.edges a b
  · rw [if_pos he]; exact h
  · rw [if_neg he]
    intro x y
    rcases h x y with ⟨h1, h2⟩
    have hxy : findPort (setPort (setPort st.ports a b pa) b a pb) x y =
        if x = b ∧ y = a then some pb
        else if x = a ∧ y = b then some pa else findPort st.ports x y := by
      rw [findPort_setPort, findPort_setPort]
    have hyx : findPort (setPort (setPort st.ports a b pa) b a pb) y x =
        if y = b ∧ x = a then some pb
        else if y = a ∧ x = b then some pa else findPort st.ports y x := by
      rw [findPort_setPort, findPort_setPort]
    show (hasEdgeW ((a, b, w) :: st.edges) x y = true ↔ _) ∧ _
    by_cases c1 : x = a ∧ y = b
    · have e1 : hasEdgeW ((a, b, w) :: st.edges) x y = true :=
        hasEdgeW_cons.mpr (Or.inl (Or.inl ⟨c1.1.symm, c1.2.symm⟩))
      have p1 : (findPort (setPort (setPort st.ports a b pa) b a pb) x y).isSome
          = true := by
        rw [hxy]
        by_cases c2 : x = b ∧ y = a
        · rw [if_pos c2]; rfl
        · rw [if_neg c2, if_pos c1]; rfl
      have p2 : (findPort (setPort (setPort st.ports a b pa) b a pb) y x).isSome
          = true := by
        rw [hyx, if_pos ⟨c1.2, c1.1⟩]; rfl
      exact ⟨by rw [e1]; exact iff_of_true rfl ⟨p1, p2⟩, iff_of_true p1 p2⟩
    · by_cases c2 : x = b ∧ y = a
      · have e1 : hasEdgeW ((a, b, w) :: st.edges) x y = true :=
          hasEdgeW_cons.mpr (Or.inl (Or.inr ⟨c2.2.symm, c2.1.symm⟩))
        have p1 : (findPort (setPort (setPort st.ports a b pa) b a pb) x y).isSome
            = true := by
          rw [hxy, if_pos c2]; rfl
        have p2 : (findPort (setPort (setPort st.ports a b pa) b a pb) y x).isSome
            = true := by
          rw [hyx, if_neg (fun hc => c1 ⟨hc.2, hc.1⟩), if_pos ⟨c2.2, c2.1⟩]; rfl
        exact ⟨by rw [e1]; exact iff_of_true rfl ⟨p1, p2⟩, iff_of_true p1 p2⟩
      · have p1 : findPort (setPort (setPort st.ports a b pa) b a pb) x y =
            findPort st.ports x y := by
          rw [hxy, if_neg c2, if_neg c1]
        have p2 : findPort (setPort (setPort st.ports a b pa) b a pb) y x =
            findPort st.ports y x := by
          rw [hyx, if_neg (fun hc => c1 ⟨hc.2, hc.1⟩),
            if_neg (fun hc => c2 ⟨hc.2, hc.1⟩)]
        have e1 : hasEdgeW ((a, b, w) :: st.edges) x y = true ↔
            hasEdgeW st.edges x y = true := by
          rw [hasEdgeW_cons]
          constructor
          · rintro (hpair | hold)
            · exact absurd hpair (by omega)
            · exact hold
          · exact fun hold => Or.inr hold
        refine ⟨?_, ?_⟩
        · show _ ↔ (findPort _ x y).isSome = true ∧ (findPort _ y x).isSome = true
          rw [e1, p1, p2]
          exact h1
        · show (findPort _ x y).isSome = true ↔ (findPort _ y x).isSome = true
          rw [p1, p2]
          exact h2

theorem portMapSymm_removeLink {st : Ctrl} (h : PortMapSymm st) (a b : Nat) :
    PortMapSymm (removeLink st a b) := by
  intro x y
  rcases h x y with ⟨h1, h2⟩
  have hxy : findPort (delPort (delPort st.ports a b) b a) x y =
      if x = b ∧ y = a then none
      else if x = a ∧ y = b then none else findPort st.ports x y := by
    rw [findPort_delPort, findPort_delPort]
  have hyx : findPort (delPort (delPort st.ports a b) b a) y x =
      if y = b ∧ x = a then none
      else if y = a ∧ x = b then none else findPort st.ports y x := by
    rw [findPort_delPort, findPort_delPort]
  by_cases hpair : (x = a ∧ y = b) ∨ (x = b ∧ y = a)
  · have p1 : findPort (delPort (delPort st.ports a b) b a) x y = none := by
      rw [hxy]
      rcases hpair with hc | hc
      · by_cases hc2 : x = b ∧ y = a
        · rw [if_pos hc2]
        · rw [if_neg hc2, if_pos hc]
      · rw [if_pos hc]
    have p2 : findPort (delPort (delPort st.ports a b) b a) y x = none := by
      rw [hyx]
      rcases hpair with hc | hc
      · rw [if_pos ⟨hc.2, hc.1⟩]
      · by_cases hc2 : y = b ∧ x = a
        · rw [if_pos hc2]
        · rw [if_neg hc2, if_pos ⟨hc.2, hc.1⟩]
    have e1 : hasEdgeW (removeLink st a b).edges x y = true → False := by
      intro hcontr
      unfold removeLink at hcontr
      by_cases he : hasEdgeW st.edges a b
      · rw [if_pos he] at hcontr
        rcases hasEdgeW_filter_out.mp hcontr with ⟨hne, -⟩
        exact hne (by omega)
      · rw [if_neg he] at hcontr
        apply he
        rcases hpair with hc | hc
        · rw [← hc.1, ← hc.2]
          exact hcontr
        · rw [hasEdgeW_symm st.edges a b, ← hc.1, ← hc.2]
          exact hcontr
    refine ⟨?_, ?_⟩
    · show hasEdgeW (removeLink st a b).edges x y = true ↔
        (findPort (delPort (delPort st.ports a b) b a) x y).isSome = true ∧
        (findPort (delPort (delPort st.ports a b) b a) y x).isSome = true
      rw [p1, p2]
      exact iff_of_false e1 (by rintro ⟨hs, -⟩; exact absurd hs (by simp))
    · show (findPort (delPort (delPort st.ports a b) b a) x y).isSome = true ↔
        (findPort (delPort (delPort st.ports a b) b a) y x).isSome = true
      rw [p1, p2]
  · have hp1 : findPort (delPort (delPort st.ports a b) b a) x y =
        findPort st.ports x y := by
      rw [hxy, if_neg (fun hc => hpair (Or.inr hc)),
        if_neg (fun hc => hpair (Or.inl hc))]
    have hp2 : findPort (delPort (delPort st.ports a b) b a) y x =
        findPort st.ports y x := by
      rw [hyx, if_neg (fun hc => hpair (Or.inl ⟨hc.2, hc.1⟩)),
        if_neg (fun hc => hpair (Or.inr ⟨hc.2, hc.1⟩))]
    have e1 : hasEdgeW (removeLink st a b).edges x y = true ↔
        hasEdgeW st.edges x y = true := by
      unfold removeLink
      by_cases he : hasEdgeW st.edges a b
      · rw [if_pos he, hasEdgeW_filter_out]
        constructor
        · rintro ⟨-, hold⟩; exact hold
        · exact fun hold => ⟨by omega, hold⟩
      · rw [if_neg he]
    refine ⟨?_, ?_⟩
    · show hasEdgeW (removeLink st a b).edges x y = true ↔
        (findPort (delPort (delPort st.ports a b) b a) x y).isSome = true ∧
        (findPort (delPort (delPort st.ports a b) b a) y x).isSome = true
      rw [e1, hp1, hp2]
      exact h1
    · show (findPort (delPort (delPort st.ports a b) b a) x y).isSome = true ↔
        (findPort (delPort (delPort st.ports a b) b a) y x).isSome = true
      rw [hp1, hp2]
      exact h2

theorem portMapSymm_applyOp {st : Ctrl} (h : PortMapSymm st) (op : TopoOp) :
    PortMapSymm (applyOp st op) := by
  cases op with
  | add a pa b pb w => exact portMapSymm_addLink h a pa b pb w
  | del a b => exact portMapSymm_removeLink h a b

theorem portMapSymm_initial : PortMapSymm initialCtrl := by
  intro a b
  refine ⟨iff_of_false (by simp [hasEdgeW, initialCtrl]) ?_, Iff.rfl⟩
  rintro ⟨hs, -⟩
  simp [portOf, findPort, initialCtrl] at hs

/-- C3: after any sequence of link-add and link-delete operations starting
from the empty Topology Store, the port map stays symmetric: the graph has
edge (a, b) exactly when both `switch_to_port[a][b]` and
`switch_to_port[b][a]` are defined, and never exactly one of the two. -/
theorem port_map_symmetric_after_ops (ops : List TopoOp) :
    PortMapSymm (ops.foldl applyOp initialCtrl) := by
  have gen : ∀ (l : List TopoOp) (st : Ctrl), PortMapSymm st →
      PortMapSymm (l.foldl applyOp st) := by
    intro l
    induction l with
    | nil => exact fun st h => h
    | cons op l ih => exact fun st h => ih (applyOp st op) (portMapSymm_applyOp h op)
  exact gen ops initialCtrl portMapSymm_initial

/-- C6: link addition is idempotent — performing it twice with identical
arguments leaves exactly the state of performing it once, and performing it
when the edge already exists is a no-op. -/
theorem addLink_idempotent (st : Ctrl) (a pa b pb w : Nat) :
    addLink (addLink st a pa b pb w) a pa b pb w = addLink st a pa b pb w ∧
    (hasEdgeW st.edges a b = true → addLink st a pa b pb w = st) := by
  have noop : ∀ s : Ctrl, hasEdgeW s.edges a b = true →
      addLink s a pa b pb w = s := by
    intro s hs
    unfold addLink
    rw [if_pos hs]
  refine ⟨?_, noop st⟩
  by_cases he : hasEdgeW st.edges a b
  · rw [noop st he]
    exact noop st he
  · have hafter : hasEdgeW (addLink st a pa b pb w).edges a b = true := by
      unfold addLink
      rw [if_neg he]
      exact hasEdgeW_cons.mpr (Or.inl (Or.inl ⟨rfl, rfl⟩))
    exact noop _ hafter

/-- Witness for C6: a concrete double insertion, plus the no-op clause on a
state that already holds the edge. -/
theorem addLink_idempotent_witness :
    addLink (addLink initialCtrl 1 2 3 4 1) 1 2 3 4 1 =
      addLink initialCtrl 1 2 3 4 1 ∧
    addLink (addLink initialCtrl 1 2 3 4 1) 1 2 3 4 1 =
      addLink initialCtrl 1 2 3 4 1 :=
  ⟨(addLink_idempotent initialCtrl 1 2 3 4 1).1,
   (addLink_idempotent (addLink initialCtrl 1 2 3 4 1) 1 2 3 4 1).2 (by decide)⟩

/-! Host Location Table: `learn_host_location` and `is_broadcast_multicast`
(main_controller.py, lines 294-326 and 424-426). -/

/-- Host-table lookup `self.host_locations.get(mac)`. -/
def lookupHost (st : Ctrl) (mac : Mac) : Option (Nat × Nat) :=
  (st.hosts.find? (fun kv => kv.1 == mac)).map (fun kv => kv.2)

/-- Dict assignment `self.host_locations[mac] = (dpid, port)`. -/
def setHost (st : Ctrl) (mac : Mac) (dpid port : Nat) : Ctrl :=
  { st with hosts := (mac, dpid, port) :: st.hosts.filter (fun kv => !(kv.1 == mac)) }

/-- Python `self.switch_to_port.get(dpid, {}).values()`: the inter-switch
ports registered for `dpid`. -/
def interSwitchPorts (st : Ctrl) (dpid : Nat) : List Nat :=
  st.ports.filterMap (fun kv => if kv.1.1 = dpid then some kv.2 else none)

/-- Python `port == 1 or port not in inter_switch_ports`. -/
def is_likely_host_port (st : Ctrl) (dpid port : Nat) : Bool :=
  port == 1 || !((interSwitchPorts st dpid).contains port)

/-- `MainDijkstraController.is_broadcast_multicast`: the broadcast address or
an address whose string form starts with "33:33". -/
def is_broadcast_multicast (mac : Mac) : Bool :=
  mac == bcastMac || mac.take 2 == [0x33, 0x33]

/-- `MainDijkstraController.learn_host_location` (lines 294-326): skip the
broadcast and all-zero source addresses, then create a new mapping on a
likely host port, or relocate an existing mapping (same switch, different
port, or different switch) only when the new port is a likely host port. -/
def learn_host_location (st : Ctrl) (dpid : Nat) (mac : Mac) (port : Nat) : Ctrl :=
  if mac = bcastMac ∨ mac = zeroMac then st
  else
    match lookupHost st mac with
    | none =>
      if is_likely_host_port st dpid port || port == 1 then setHost st mac dpid port
      else st
    | some (d, p) =>
      if d = dpid ∧ p ≠ port then
        (if is_likely_host_port st dpid port then setHost st mac dpid port else st)
      else if d ≠ dpid then
        (if is_likely_host_port st dpid port then setHost st mac dpid port else st)
      else st

theorem lookupHost_setHost (st : Ctrl) (mac : Mac) (dpid port : Nat) :
    lookupHost (setHost st mac dpid port) mac = some (dpid, port) := by
  unfold lookupHost setHost
  rw [List.find?_cons_of_pos _ (by simp)]
  rfl

/-- C7 counterexample state: host X is recorded at (1, 5) and port 7 is a
registered inter-switch port of switch 2 (toward neighbor 9). -/
def stMoveCex : Ctrl :=
  { nodes := [1, 2, 9], edges := [(2, 9, 1)], ports := [((2, 9), 7), ((9, 2), 3)],
    hosts := [([0, 0, 0, 0, 0, 42], 1, 5)] }

/-- C7 counterexample: host X sits at (1, 5); a later Learn observation at
the different location (2, 7) does NOT overwrite the stored entry, because
port 7 is a known inter-switch port of switch 2 and the relocation branch is
guarded by the likely-host-port test. -/
theorem learn_move_guarded_cex :
    lookupHost stMoveCex [0, 0, 0, 0, 0, 42] = some (1, 5) ∧
    learn_host_location stMoveCex 2 [0, 0, 0, 0, 0, 42] 7 = stMoveCex ∧
    lookupHost (learn_host_location stMoveCex 2 [0, 0, 0, 0, 0, 42] 7)
      [0, 0, 0, 0, 0, 42] = some (1, 5) :=
  ⟨by decide, by decide, by decide⟩

/-- C7 amended: relocation is last-write-wins only for observations whose
port passes the likely-host-port test (port 1, or a port not registered as
an inter-switch port of that switch); such a Learn at a different switch
overwrites the stored location with the new one, with no timestamp or
staleness comparison. -/
theorem learn_move_likely_host_port (st : Ctrl) (dpid port : Nat) (mac : Mac)
    (d p : Nat) (hmac : ¬ (mac = bcastMac ∨ mac = zeroMac))
    (hloc : lookupHost st mac = some (d, p)) (hdiff : d ≠ dpid)
    (hlikely : is_likely_host_port st dpid port = true) :
    lookupHost (learn_host_location st dpid mac port) mac = some (dpid, port) := by
  unfold learn_host_location
  rw [if_neg hmac, hloc]
  dsimp only
  by_cases hsame : d = dpid ∧ p ≠ port
  · exact absurd hsame.1 hdiff
  · rw [if_neg hsame, if_pos hdiff, if_pos hlikely]
    exact lookupHost_setHost st mac dpid port

/-- Witness for C7 amended: Learn(1, X, 5) then Learn(2, X, 7) on empty port
maps yields location (2, 7). -/
theorem learn_move_likely_host_port_witness :
    lookupHost
      (learn_host_location
        (learn_host_location initialCtrl 1 [0, 0, 0, 0, 0, 42] 5)
        2 [0, 0, 0, 0, 0, 42] 7)
      [0, 0, 0, 0, 0, 42] = some (2, 7) :=
  learn_move_likely_host_port
    (learn_host_location initialCtrl 1 [0, 0, 0, 0, 0, 42] 5)
    2 7 [0, 0, 0, 0, 0, 42] 1 5 (by decide) (by decide) (by decide) (by decide)

/-- C8 counterexample: a multicast (but non-broadcast, non-zero) source MAC
33:33:00:00:00:01 IS learned by `learn_host_location` — the function only
filters the broadcast and all-zero addresses, not multicast ones, although
`is_broadcast_multicast` classifies the address as multicast. -/
theorem learn_multicast_learned_cex :
    is_broadcast_multicast [0x33, 0x33, 0, 0, 0, 1] = true ∧
    learn_host_location initialCtrl 1 [0x33, 0x33, 0, 0, 0, 1] 1 ≠ initialCtrl ∧
    lookupHost (learn_host_location initialCtrl 1 [0x33, 0x33, 0, 0, 0, 1] 1)
      [0x33, 0x33, 0, 0, 0, 1] = some (1, 1) :=
  ⟨by decide, by decide, by decide⟩

/-- C8 amended: `learn_host_location` leaves the host table (indeed the whole
controller state) unchanged for the broadcast and the all-zero source MAC;
multicast source addresses are not filtered by Learn (the multicast test is
applied only to destination MACs in the packet-in handler). -/
theorem learn_ignores_broadcast_zero (st : Ctrl) (dpid port : Nat) :
    learn_host_location st dpid bcastMac port = st ∧
    learn_host_location st dpid zeroMac port = st := by
  constructor
  · unfold learn_host_location
    rw [if_pos (Or.inl rfl)]
  · unfold learn_host_location
    rw [if_pos (Or.inr rfl)]

/-! Packet Dispatcher: `packet_in_handler` (main_controller.py, lines
224-292).  The OpenFlow commands the handler sends are recorded in order:
`Cmd.flood` for `flood_packet` (packet-out on all eligible ports),
`Cmd.packetOut` for `forward_packet`, `Cmd.flowMod` for
`install_path_flow`. -/

inductive Cmd where
  | flood
  | packetOut (port : Nat)
  | flowMod (src dst : Mac) (outPort : Nat)
deriving DecidableEq, Repr

def ETH_TYPE_LLDP : Nat := 0x88cc
def ETH_TYPE_IPV6 : Nat := 0x86dd

/-- `MainDijkstraController.packet_in_handler`: skip LLDP/IPv6, learn the
source location, flood broadcast/multicast destinations, output directly on
the same switch, or compute a path, install the first-hop flow and forward;
on a missing path, a short path, or a missing next-hop port the handler
returns without sending anything. -/
def packet_in_handler (st : Ctrl) (dpid inPort : Nat) (srcMac dstMac : Mac)
    (ethType : Nat) : Ctrl × List Cmd :=
  if ethType = ETH_TYPE_LLDP ∨ ethType = ETH_TYPE_IPV6 then (st, [])
  else
    let st1 := learn_host_location st dpid srcMac inPort
    if is_broadcast_multicast dstMac then (st1, [Cmd.flood])
    else
      match lookupHost st1 dstMac with
      | some (dstDpid, dstPort) =>
        if dpid = dstDpid then (st1, [Cmd.packetOut dstPort])
        else
          match calculate_shortest_path st1 dpid dstDpid with
          | none => (st1, [])
          | some path =>
            if path.length < 2 then (st1, [])
            else
              match path[1]? with
              | none => (st1, [])
              | some nextHop =>
                match portOf st1 dpid nextHop with
                | none => (st1, [])
                | some outPort =>
                  if outPort = 0 then (st1, [])
                  else (st1, [Cmd.flowMod srcMac dstMac outPort,
                              Cmd.packetOut outPort])
      | none => (st1, [Cmd.flood])

/-- C2 counterexample state: destination host B is learned at switch 2 but
switches 1 and 2 are disconnected (no edges at all). -/
def stNoPath : Ctrl :=
  { nodes := [1, 2], edges := [], ports := [],
    hosts := [([0, 0, 0, 0, 0, 11], 2, 1)] }

/-- C2 counterexample: the destination is learned on a different,
unreachable switch, the Path Engine reports NoPath, and the handler sends
nothing at all — it drops the packet instead of flooding it. -/
theorem packet_in_nopath_drops_cex :
    lookupHost (learn_host_location stNoPath 1 [0, 0, 0, 0, 0, 10] 1)
      [0, 0, 0, 0, 0, 11] = some (2, 1) ∧
    calculate_shortest_path
      (learn_host_location stNoPath 1 [0, 0, 0, 0, 0, 10] 1) 1 2 = none ∧
    (packet_in_handler stNoPath 1 1 [0, 0, 0, 0, 0, 10]
      [0, 0, 0, 0, 0, 11] 0x0800).2 = [] :=
  ⟨by decide, by decide, by decide⟩

/-- C2 amended: when the destination MAC is learned at a different switch
and the Path Engine finds no route, the handler returns with no packet-out
and no flow-mod — the packet is silently dropped, not flooded; flooding
happens only for broadcast/multicast destinations and for destinations with
no learned location. -/
theorem packet_in_nopath_drops (st : Ctrl) (dpid inPort : Nat)
    (srcMac dstMac : Mac) (ethType : Nat) (dstDpid dstPort : Nat)
    (hty : ¬ (ethType = ETH_TYPE_LLDP ∨ ethType = ETH_TYPE_IPV6))
    (hbc : ¬ is_broadcast_multicast dstMac = true)
    (hloc : lookupHost (learn_host_location st dpid srcMac inPort) dstMac =
      some (dstDpid, dstPort))
    (hdiff : dpid ≠ dstDpid)
    (hnopath : calculate_shortest_path
      (learn_host_location st dpid srcMac inPort) dpid dstDpid = none) :
    packet_in_handler st dpid inPort srcMac dstMac ethType =
      (learn_host_location st dpid srcMac inPort, []) := by
  unfold packet_in_handler
  rw [if_neg hty]
  dsimp only
  rw [if_neg hbc, hloc]
  dsimp only
  rw [if_neg hdiff, hnopath]

/-- Witness for C2 amended on the disconnected two-switch state. -/
theorem packet_in_nopath_drops_witness :
    packet_in_handler stNoPath 1 1 [0, 0, 0, 0, 0, 10]
        [0, 0, 0, 0, 0, 11] 0x0800 =
      (learn_host_location stNoPath 1 [0, 0, 0, 0, 0, 10] 1, []) :=
  packet_in_nopath_drops stNoPath 1 1 [0, 0, 0, 0, 0, 10] [0, 0, 0, 0, 0, 11]
    0x0800 2 1 (by decide) (by decide) (by decide) (by decide) (by decide)

/-- C10: when the destination MAC is learned at the very switch the packet
arrived on, the handler sends a single packet-out to the learned host port
and installs no flow entry, so the flow table is untouched and later packets
of the flow keep coming to the controller. -/
theorem same_switch_packetout_no_flow (st : Ctrl) (dpid inPort : Nat)
    (srcMac dstMac : Mac) (ethType : Nat) (dstPort : Nat)
    (hty : ¬ (ethType = ETH_TYPE_LLDP ∨ ethType = ETH_TYPE_IPV6))
    (hbc : ¬ is_broadcast_multicast dstMac = true)
    (hloc : lookupHost (learn_host_location st dpid srcMac inPort) dstMac =
      some (dpid, dstPort)) :
    packet_in_handler st dpid inPort srcMac dstMac ethType =
      (learn_host_location st dpid srcMac inPort, [Cmd.packetOut dstPort]) ∧
    ∀ (s d : Mac) (o : Nat),
      Cmd.flowMod s d o ∉ (packet_in_handler st dpid inPort srcMac dstMac ethType).2 := by
  have hmain : packet_in_handler st dpid inPort srcMac dstMac ethType =
      (learn_host_location st dpid srcMac inPort, [Cmd.packetOut dstPort]) := by
    unfold packet_in_handler
    rw [if_neg hty]
    dsimp only
    rw [if_neg hbc, hloc]
    dsimp only
    rw [if_pos rfl]
  refine ⟨hmain, ?_⟩
  intro s d o
  rw [hmain]
  simp

/-- Witness for C10: destination learned at port 3 of the ingress switch. -/
theorem same_switch_packetout_no_flow_witness :
    packet_in_handler
        { nodes := [1], edges := [], ports := [],
          hosts := [([0, 0, 0, 0, 0, 11], 1, 3)] }
        1 1 [0, 0, 0, 0, 0, 10] [0, 0, 0, 0, 0, 11] 0x0800 =
      (learn_host_location
        { nodes := [1], edges := [], ports := [],
          hosts := [([0, 0, 0, 0, 0, 11], 1, 3)] }
        1 [0, 0, 0, 0, 0, 10] 1, [Cmd.packetOut 3]) :=
  (same_switch_packetout_no_flow
    { nodes := [1], edges := [], ports := [],
      hosts := [([0, 0, 0, 0, 0, 11], 1, 3)] }
    1 1 [0, 0, 0, 0, 0, 10] [0, 0, 0, 0, 0, 11] 0x0800 3
    (by decide) (by decide) (by decide)).1

/-! Dual-domain deployment, instance 1: `gateway_primary.py`
(class `GatewayPrimaryController`). -/

/-- `self.managed_switches = {1, 2, 3, 4, 5}`. -/
def managed_switches : List Nat := [1, 2, 3, 4, 5]

/-- `self.switch_links`: neighbor dpid -> local port, per switch. -/
def switch_links : Nat → List (Nat × Nat)
  | 1 => [(2, 3), (3, 4)]
  | 2 => [(1, 3), (4, 4), (5, 5)]
  | 3 => [(1, 3), (6, 4), (7, 5)]
  | 4 => [(2, 3), (8, 4), (9, 5)]
  | 5 => [(2, 3), (10, 4)]
  | _ => []

/-- `self.secondary_gateway['default'] = 3`. -/
def secondary_gateway_default : Nat := 3

/-- `self.secondary_gateway['switches'] = [3, 4, 5]`. -/
def secondary_gateway_switches : List Nat := [3, 4, 5]

/-- `GatewayPrimaryController._find_next_hop` (lines 180-210): direct link
first, then the hard-coded per-switch routing chain, `None` when no branch
matches. -/
def find_next_hop (current target : Nat) : Option Nat :=
  if current = target then none
  else
    match (switch_links current).lookup target with
    | some p => some p
    | none =>
      if current = 1 then
        (if target = 2 ∨ target = 4 ∨ target = 5 then some 3
         else if target = 3 ∨ target = 6 ∨ target = 7 then some 4
         else none)
      else if current = 2 then
        (if target = 1 then some 3
         else if target = 4 ∨ target = 8 ∨ target = 9 then some 4
         else if target = 5 ∨ target = 10 then some 5
         else none)
      else if current = 3 then some 3
      else if current = 4 then some 3
      else if current = 5 then some 3
      else none

/-- `GatewayPrimaryController._get_gateway_port_to_secondary` (lines
212-224): port 4 for the default gateway s3, otherwise the first hop of the
hard-coded route toward s3. -/
def get_gateway_port_to_secondary (dpid : Nat) : Option Nat :=
  if dpid = secondary_gateway_default then some 4
  else find_next_hop dpid secondary_gateway_default

/-- `GatewayPrimaryController._is_secondary_domain`: the MAC value's last
byte lies in 0x0b .. 0x14 (hosts h11-h20). -/
def is_secondary_domain (mac : Mac) : Bool :=
  match mac.getLast? with
  | some b => decide (0x0b ≤ b) && decide (b ≤ 0x14)
  | none => false

/-- In-switch L2 table lookup. -/
def lookupMac (t : List (Mac × Nat)) (mac : Mac) : Option Nat :=
  (t.find? (fun kv => kv.1 == mac)).map (fun kv => kv.2)

/-- `self.mac_to_port.get(dpid, {})` / `self.mac_to_port[dpid]`. -/
def mtpGet (m : List (Nat × List (Mac × Nat))) (dpid : Nat) : List (Mac × Nat) :=
  match m.find? (fun kv => kv.1 == dpid) with
  | some kv => kv.2
  | none => []

/-- `self.mac_to_port[dpid][mac] = port`. -/
def mtpSet (m : List (Nat × List (Mac × Nat))) (dpid : Nat) (mac : Mac)
    (port : Nat) : List (Nat × List (Mac × Nat)) :=
  (dpid, (mac, port) :: (mtpGet m dpid).filter (fun kv => !(kv.1 == mac))) ::
    m.filter (fun kv => !(kv.1 == dpid))

/-- `self.mac_to_port.setdefault(dpid, {})`. -/
def mtpSetdefault (m : List (Nat × List (Mac × Nat))) (dpid : Nat) :
    List (Nat × List (Mac × Nat)) :=
  match m.find? (fun kv => kv.1 == dpid) with
  | some _ => m
  | none => (dpid, []) :: m

/-- State of a `GatewayPrimaryController` instance: per-switch L2 tables,
the registered datapaths, and the global MAC table. -/
structure GwState where
  macToPort : List (Nat × List (Mac × Nat))
  datapaths : List Nat
  globalMacTable : List (Mac × Nat × Nat)
deriving DecidableEq, Repr

def gwInitial : GwState := ⟨[], [], []⟩

/-- The out-port value the handler computes: a concrete port, the FLOOD
pseudo-port, or Python `None` (a possible `_find_next_hop` result). -/
inductive OutPort where
  | port (n : Nat)
  | flood
  | nullPort
deriving DecidableEq, Repr

/-- Commands a dual-domain instance sends to a switch. -/
inductive GwCmd where
  | tableMissFlow
  | packetOutFlood
  | installFlow (src dst : Mac) (out : OutPort)
deriving DecidableEq, Repr

/-- `GatewayPrimaryController.switch_features_handler` (lines 46-71): filter
on the managed set, then register the datapath, default the L2 table and
install the table-miss flow. -/
def gw_switch_features_handler (st : GwState) (dpid : Nat) :
    GwState × List GwCmd :=
  if dpid ∉ managed_switches then (st, [])
  else
    ({ st with
        datapaths := dpid :: st.datapaths.filter (fun d => !(d == dpid)),
        macToPort := mtpSetdefault st.macToPort dpid },
     [GwCmd.tableMissFlow])

/-- `GatewayPrimaryController.packet_in_handler` (lines 88-168): filter on
the managed set, drop LLDP, flood broadcast/multicast; learn the source MAC
only when unseen on this switch; then resolve the out-port (local L2 entry,
global table + next hop, secondary-domain gateway port, or flood) and either
install the flow (non-flood) or flood the packet out. -/
def gw_packet_in_handler (st : GwState) (dpid inPort : Nat) (src dst : Mac)
    (ethType : Nat) : GwState × List GwCmd :=
  if dpid ∉ managed_switches then (st, [])
  else if ethType = ETH_TYPE_LLDP then (st, [])
  else if dst == bcastMac || dst.take 2 == [0x33, 0x33] then
    (st, [GwCmd.packetOutFlood])
  else
    let st1 :=
      if (lookupMac (mtpGet st.macToPort dpid) src).isNone then
        { st with
            macToPort := mtpSet st.macToPort dpid src inPort,
            globalMacTable := (src, dpid, inPort) ::
              st.globalMacTable.filter (fun kv => !(kv.1 == src)) }
      else st
    let outPort : OutPort :=
      match lookupMac (mtpGet st1.macToPort dpid) dst with
      | some p => OutPort.port p
      | none =>
        match (st1.globalMacTable.find? (fun kv => kv.1 == dst)).map
            (fun kv => kv.2) with
        | some (targetDpid, _) =>
          (match find_next_hop dpid targetDpid with
           | some p => OutPort.port p
           | none => OutPort.nullPort)
        | none =>
          if is_secondary_domain dst then
            (match get_gateway_port_to_secondary dpid with
             | some p => OutPort.port p
             | none => OutPort.nullPort)
          else OutPort.flood
    if outPort ≠ OutPort.flood then (st1, [GwCmd.installFlow src dst outPort])
    else (st1, [GwCmd.packetOutFlood])

/-- The ports of `switch_links dpid` whose far end lies outside the managed
set — the cross-domain ports of a designated gateway switch (stated from the
spec's description of GatewayPortFor, for comparison with the code). -/
def crossDomainPorts (dpid : Nat) : List Nat :=
  (switch_links dpid).filterMap
    (fun nb => if nb.1 ∉ managed_switches then some nb.2 else none)

/-- C9 counterexample: s4 is a designated gateway switch, directly linked to
the secondary domain through its cross-domain ports 4 (to s8) and 5 (to s9);
yet for a peer-domain destination (h11, last byte 0x0b) the instance resolves
the out-port of s4 to port 3 — the local port toward s2 — not a cross-domain
port: `_get_gateway_port_to_secondary` special-cases only the default
gateway s3 and otherwise routes toward s3. -/
theorem gateway_port_designated_cex :
    4 ∈ secondary_gateway_switches ∧
    crossDomainPorts 4 = [4, 5] ∧
    is_secondary_domain [0, 0, 0, 0, 0, 0x0b] = true ∧
    get_gateway_port_to_secondary 4 = some 3 ∧
    3 ∉ crossDomainPorts 4 ∧
    (gw_packet_in_handler gwInitial 4 1 [0, 0, 0, 0, 0, 1]
        [0, 0, 0, 0, 0, 0x0b] 0x0800).2 =
      [GwCmd.installFlow [0, 0, 0, 0, 0, 1] [0, 0, 0, 0, 0, 0x0b]
        (OutPort.port 3)] := by
  refine ⟨by decide, by decide, by decide, by decide, by decide, ?_⟩
  decide

/-- C9 amended: only the default gateway s3 returns its fixed cross-domain
port (4, toward s6); every other managed switch returns the first hop of the
hard-coded route toward s3 — s1 its direct port 4 to s3, s4 and s5 their
local port 3 toward s2 even though both are designated gateways with
cross-domain links of their own, and s2 no port at all (None), since the
hard-coded routing chain has no s2-to-s3 case. -/
theorem gateway_port_behavior :
    (get_gateway_port_to_secondary 3 = some 4 ∧ 4 ∈ crossDomainPorts 3) ∧
    (get_gateway_port_to_secondary 1 = some 4 ∧
      (switch_links 1).lookup 3 = some 4) ∧
    get_gateway_port_to_secondary 2 = none ∧
    (get_gateway_port_to_secondary 4 = some 3 ∧
      (switch_links 4).lookup 2 = some 3 ∧ 3 ∉ crossDomainPorts 4) ∧
    (get_gateway_port_to_secondary 5 = some 3 ∧
      (switch_links 5).lookup 2 = some 3 ∧ 3 ∉ crossDomainPorts 5) := by
  decide

/-! Dual-domain deployment, instance 2: `primary_controller.py`
(class `PrimaryController`). -/

/-- `self.my_switches = {1, 2, 3, 4, 5}`. -/
def prim_my_switches : List Nat := [1, 2, 3, 4, 5]

/-- `self.gateway_switches = {3, 4, 5}`. -/
def prim_gateway_switches : List Nat := [3, 4, 5]

/-- `self.primary_hosts`: the MACs 00:00:00:00:00:01 .. 00:00:00:00:00:0a. -/
def primary_hosts : List Mac := (List.range 10).map (fun i => [0, 0, 0, 0, 0, i + 1])

/-- `PrimaryController._is_cross_domain_dst`. -/
def is_cross_domain_dst (dst : Mac) : Bool := !(primary_hosts.contains dst)

/-- `PrimaryController._build_topology` (lines 35-55): nodes 1..10 and the
static weighted edge list (weight 1 inside the primary domain, 2 on
cross-domain links). -/
def prim_initial_edges : WEdges :=
  [(1, 2, 1), (1, 3, 1), (2, 4, 1), (2, 5, 1),
   (3, 6, 2), (3, 7, 2), (4, 8, 2), (4, 9, 2), (5, 10, 2)]

/-- State of a `PrimaryController` instance: L2 tables, the topology graph
(nodes stay, edges are removed on failure) and the connected-switch set. -/
structure PrimState where
  macToPort : List (Nat × List (Mac × Nat))
  topoNodes : List Nat
  topoEdges : WEdges
  switches : List Nat
deriving DecidableEq, Repr

def primInitial : PrimState :=
  ⟨[], (List.range 10).map (fun i => i + 1), prim_initial_edges, []⟩

/-- The topology graph of a `PrimState`, as a `Ctrl` graph carrier for the
shared Path Engine embedding. -/
def primGraph (st : PrimState) : Ctrl := ⟨st.topoNodes, st.topoEdges, [], []⟩

/-- `PrimaryController._dijkstra_path` (lines 90-120): when both endpoints
are nodes of the graph, `nx.shortest_path(self.topology, src, dst,
weight='weight')` — a minimal-total-weight connecting walk; `None` for a
missing endpoint or `nx.NetworkXNoPath`. -/
def prim_dijkstra_path (st : PrimState) (src dst : Nat) : Option (List Nat) :=
  if hasNodeB (primGraph st) src && hasNodeB (primGraph st) dst then
    pickMinWalk st.topoEdges
      (candWalks st.topoEdges src dst (allNodes (primGraph st)).length)
  else none

/-- `PrimaryController._get_next_hop_port` (lines 122-132): the static
next-hop port table. -/
def prim_port_map : Nat → List (Nat × Nat)
  | 1 => [(2, 3), (3, 4)]
  | 2 => [(1, 3), (4, 4), (5, 5)]
  | 3 => [(1, 3), (6, 4), (7, 5)]
  | 4 => [(2, 3), (8, 4), (9, 5)]
  | 5 => [(2, 3), (10, 4)]
  | _ => []

def prim_get_next_hop_port (cur nxt : Nat) : Option Nat :=
  (prim_port_map cur).lookup nxt

/-- Commands a `PrimaryController` instance sends. Its path flows match
(in_port, eth_dst) only. -/
inductive PrimCmd where
  | tableMissFlow
  | installFlow (inPort : Nat) (dst : Mac) (out : OutPort)
  | packetOut (out : OutPort)
deriving DecidableEq, Repr

/-- `PrimaryController.switch_features_handler` (lines 57-73): only managed
switches are registered and given a table-miss flow. -/
def prim_switch_features_handler (st : PrimState) (dpid : Nat) :
    PrimState × List PrimCmd :=
  if dpid ∈ prim_my_switches then
    ({ st with switches := dpid :: st.switches.filter (fun d => !(d == dpid)) },
     [PrimCmd.tableMissFlow])
  else (st, [])

/-- The gateway-switch arm of `packet_in_handler` (lines 173-184): the
cross-domain port chosen by the destination's last byte. -/
def prim_gateway_out_port (dpid : Nat) (dst : Mac) : OutPort :=
  if dpid = 3 then
    OutPort.port
      (match dst.getLast? with
       | some b => if b = 0x0b ∨ b = 0x0c ∨ b = 0x0d ∨ b = 0x0e then 4 else 5
       | none => 5)
  else if dpid = 4 then
    OutPort.port
      (match dst.getLast? with
       | some b => if b = 0x0f ∨ b = 0x10 ∨ b = 0x11 ∨ b = 0x12 then 4 else 5
       | none => 5)
  else if dpid = 5 then OutPort.port 4
  else OutPort.flood

/-- The route-to-gateway arm of `packet_in_handler` (lines 186-193): Dijkstra
to the default gateway s3, then the static first-hop port. -/
def prim_route_to_gateway (st : PrimState) (dpid : Nat) : OutPort :=
  match prim_dijkstra_path st dpid 3 with
  | some path =>
    if 1 < path.length then
      (match path[1]? with
       | some nextHop =>
         (match prim_get_next_hop_port dpid nextHop with
          | some p => OutPort.port p
          | none => OutPort.nullPort)
       | none => OutPort.nullPort)
    else OutPort.flood
  | none => OutPort.flood

/-- `PrimaryController.packet_in_handler` (lines 138-214): filter on the
managed set, drop LLDP, learn the source unconditionally, then forward to a
local L2 entry, a gateway cross-domain port chosen by the destination's last
byte, the first hop of a Dijkstra route to the default gateway s3, or flood;
non-flood out-ports also get a flow installed. -/
def prim_packet_in_handler (st : PrimState) (dpid inPort : Nat)
    (src dst : Mac) (ethType : Nat) : PrimState × List PrimCmd :=
  if dpid ∉ prim_my_switches then (st, [])
  else if ethType = ETH_TYPE_LLDP then (st, [])
  else
    let st1 : PrimState := { st with macToPort := mtpSet st.macToPort dpid src inPort }
    let outPort : OutPort :=
      match lookupMac (mtpGet st1.macToPort dpid) dst with
      | some p => OutPort.port p
      | none =>
        if is_cross_domain_dst dst then
          if dpid ∈ prim_gateway_switches then prim_gateway_out_port dpid dst
          else prim_route_to_gateway st1 dpid
        else OutPort.flood
    let flowCmds : List PrimCmd :=
      if outPort = OutPort.flood then []
      else [PrimCmd.installFlow inPort dst outPort]
    (st1, flowCmds ++ [PrimCmd.packetOut outPort])

/-- `PrimaryController._update_topology_on_failure` (lines 235-249): resolve
the failed port to its neighbor via the static table and remove the edge. -/
def prim_port_to_neighbor : Nat → List (Nat × Nat)
  | 1 => [(3, 2), (4, 3)]
  | 2 => [(3, 1), (4, 4), (5, 5)]
  | 3 => [(3, 1), (4, 6), (5, 7)]
  | 4 => [(3, 2), (4, 8), (5, 9)]
  | 5 => [(3, 2), (4, 10)]
  | _ => []

def prim_update_topology_on_failure (st : PrimState) (sw port : Nat) :
    PrimState :=
  match (prim_port_to_neighbor sw).lookup port with
  | some nbr =>
    if hasEdgeW st.topoEdges sw nbr then
      { st with
          topoEdges := st.topoEdges.filter
            (fun e => !((e.1 == sw && e.2.1 == nbr) || (e.1 == nbr && e.2.1 == sw))) }
    else st
  | none => st

inductive PortReason where
  | add
  | delete
  | modify
deriving DecidableEq, Repr

/-- `PrimaryController.port_status_handler` (lines 216-233): filter on the
managed set; a DELETE removes the failed link from the topology. -/
def prim_port_status_handler (st : PrimState) (dpid portNo : Nat)
    (reason : PortReason) : PrimState × List PrimCmd :=
  if dpid ∉ prim_my_switches then (st, [])
  else
    match reason with
    | .delete => (prim_update_topology_on_failure st dpid portNo, [])
    | _ => (st, [])

/-- C4: an event (switch-connect, packet-in, port-status) for a dpid outside
the instance's fixed managed switch set leaves the instance's state
untouched and sends no command — the filter sits at the entry of every
event handler of both dual-domain instances. -/
theorem unmanaged_dpid_handlers_noop (dpid : Nat)
    (h : dpid ∉ managed_switches) (gst : GwState) (pst : PrimState)
    (inPort portNo : Nat) (src dst : Mac) (ethType : Nat)
    (reason : PortReason) :
    gw_switch_features_handler gst dpid = (gst, []) ∧
    gw_packet_in_handler gst dpid inPort src dst ethType = (gst, []) ∧
    prim_switch_features_handler pst dpid = (pst, []) ∧
    prim_packet_in_handler pst dpid inPort src dst ethType = (pst, []) ∧
    prim_port_status_handler pst dpid portNo reason = (pst, []) := by
  have h' : dpid ∉ prim_my_switches := h
  refine ⟨?_, ?_, ?_, ?_, ?_⟩
  · unfold gw_switch_features_handler
    rw [if_pos h]
  · unfold gw_packet_in_handler
    rw [if_pos h]
  · unfold prim_switch_features_handler
    rw [if_neg h']
  · unfold prim_packet_in_handler
    rw [if_pos h']
  · unfold prim_port_status_handler
    rw [if_pos h']

/-- Witness for C4 at the unmanaged dpid 6 (a secondary-domain switch). -/
theorem unmanaged_dpid_handlers_noop_witness :
    gw_switch_features_handler gwInitial 6 = (gwInitial, []) ∧
    gw_packet_in_handler gwInitial 6 1 [0, 0, 0, 0, 0, 1] [0, 0, 0, 0, 0, 11]
      0x0800 = (gwInitial, []) ∧
    prim_switch_features_handler primInitial 6 = (primInitial, []) ∧
    prim_packet_in_handler primInitial 6 1 [0, 0, 0, 0, 0, 1]
      [0, 0, 0, 0, 0, 11] 0x0800 = (primInitial, []) ∧
    prim_port_status_handler primInitial 6 3 PortReason.delete =
      (primInitial, []) :=
  unmanaged_dpid_handlers_noop 6 (by decide) gwInitial primInitial 1 3
    [0, 0, 0, 0, 0, 1] [0, 0, 0, 0, 0, 11] 0x0800 PortReason.delete

end NetLab
